/-
Verification of the finance_flow transaction store and aggregation engine
(src/main.py) against its natural-language specification.

Embedding conventions:
* Monetary amounts are embedded as rationals (`ℚ`); the Python code reads them
  as floating-point numbers, and every aggregate in scope is a plain sum,
  difference or quotient of those values, which we model with exact arithmetic.
* A pandas timestamp is determined by its calendar date here (the code never
  uses a time-of-day component); we embed dates as day/month/year triples and
  compare them through their serial day number (rata die), which is the order
  pandas timestamps carry.
* The CSV file is embedded as `Option (List Row)`: `none` is "file absent".
* Python exceptions surface as `Except PdError`.
-/
import Mathlib

namespace FinanceFlow

/-! ### Calendar dates

`datetime` / pandas timestamps in the proleptic Gregorian calendar. -/

structure Date where
  day : Nat
  month : Nat
  year : Nat
deriving DecidableEq

/-- Gregorian leap-year rule used by `datetime` / pandas. -/
def isLeapYear (y : Nat) : Bool :=
  decide ((y % 4 = 0 ∧ y % 100 ≠ 0) ∨ y % 400 = 0)

/-- Number of days of month `m` (1-12) in a year with leap flag `leap`. -/
def daysInMonth (leap : Bool) : Nat → Nat
  | 1 => 31
  | 2 => if leap then 29 else 28
  | 3 => 31
  | 4 => 30
  | 5 => 31
  | 6 => 30
  | 7 => 31
  | 8 => 31
  | 9 => 30
  | 10 => 31
  | 11 => 30
  | 12 => 31
  | _ => 0

/-- Days elapsed in the year before month `m` begins (`cdays leap 13` is the
year length). -/
def cdays (leap : Bool) : Nat → Nat
  | 1 => 0
  | 2 => 31
  | 3 => if leap then 60 else 59
  | 4 => if leap then 91 else 90
  | 5 => if leap then 121 else 120
  | 6 => if leap then 152 else 151
  | 7 => if leap then 182 else 181
  | 8 => if leap then 213 else 212
  | 9 => if leap then 244 else 243
  | 10 => if leap then 274 else 273
  | 11 => if leap then 305 else 304
  | 12 => if leap then 335 else 334
  | 13 => if leap then 366 else 365
  | _ => 0

/-- A well-formed `datetime.date` (year at least `MINYEAR = 1`). -/
def Date.Valid (d : Date) : Prop :=
  1 ≤ d.month ∧ d.month ≤ 12 ∧ 1 ≤ d.day ∧
    d.day ≤ daysInMonth (isLeapYear d.year) d.month ∧ 1 ≤ d.year

instance (d : Date) : Decidable d.Valid := by
  unfold Date.Valid; infer_instance

/-- Serial number of the first day of year `y` (rata die, day 1-1-1 ↦ 0). -/
def yearStart (y : Nat) : Nat :=
  365 * (y - 1) + (y - 1) / 4 + (y - 1) / 400 - (y - 1) / 100

/-- Serial day number of a date: the quantity by which pandas timestamps are
ordered and compared. -/
def dayNumber (d : Date) : Nat :=
  yearStart d.year + cdays (isLeapYear d.year) d.month + (d.day - 1)

/-- The next calendar day. -/
def succDate (d : Date) : Date :=
  if d.day < daysInMonth (isLeapYear d.year) d.month then
    ⟨d.day + 1, d.month, d.year⟩
  else if d.month < 12 then
    ⟨1, d.month + 1, d.year⟩
  else
    ⟨1, 1, d.year + 1⟩

/-! ### Arithmetic facts about the calendar -/

theorem cdays_succ : ∀ (L : Bool) (m : Nat), m < 13 → 1 ≤ m →
    cdays L (m + 1) = cdays L m + daysInMonth L m := by decide

theorem cdays_mono : ∀ (L : Bool) (a : Nat), a < 14 → ∀ b, b < 14 → a ≤ b →
    cdays L a ≤ cdays L b := by decide

theorem cdays_daysInMonth_le : ∀ (L : Bool) (m : Nat), m < 13 → 1 ≤ m →
    cdays L m + daysInMonth L m ≤ cdays L 13 := by decide

theorem daysInMonth_pos : ∀ (L : Bool) (m : Nat), m < 13 → 1 ≤ m →
    1 ≤ daysInMonth L m := by decide

theorem cdays_one : ∀ L : Bool, cdays L 1 = 0 := by decide

theorem cdays_thirteen (L : Bool) :
    cdays L 13 = 365 + (if L then 1 else 0) := by cases L <;> rfl

theorem isLeapYear_iff (y : Nat) :
    isLeapYear y = true ↔ ((y % 4 = 0 ∧ y % 100 ≠ 0) ∨ y % 400 = 0) := by
  simp [isLeapYear]

set_option maxHeartbeats 1000000 in
theorem yearStart_succ (y : Nat) (hy : 1 ≤ y) :
    yearStart (y + 1) = yearStart y + 365 + (if isLeapYear y then 1 else 0) := by
  by_cases hP : ((y % 4 = 0 ∧ y % 100 ≠ 0) ∨ y % 400 = 0)
  · rw [(isLeapYear_iff y).mpr hP, if_pos rfl]
    unfold yearStart
    omega
  · have hL : isLeapYear y = false := by
      rw [← Bool.not_eq_true]
      exact fun hc => hP ((isLeapYear_iff y).mp hc)
    rw [hL, if_neg (by simp)]
    unfold yearStart
    omega

theorem yearStart_mono {y1 y2 : Nat} (h : y1 ≤ y2) :
    yearStart y1 ≤ yearStart y2 := by
  unfold yearStart
  have h4 : (y1 - 1) / 4 ≤ (y2 - 1) / 4 :=
    Nat.div_le_div_right (Nat.sub_le_sub_right h 1)
  have h100 : (y1 - 1) / 100 ≤ (y2 - 1) / 100 :=
    Nat.div_le_div_right (Nat.sub_le_sub_right h 1)
  have h400 : (y1 - 1) / 400 ≤ (y2 - 1) / 400 :=
    Nat.div_le_div_right (Nat.sub_le_sub_right h 1)
  omega

/-- Every day of a valid year `y` has serial number below `yearStart (y+1)`. -/
theorem dayNumber_lt_yearStart_succ (d : Date) (h : d.Valid) :
    dayNumber d < yearStart (d.year + 1) := by
  obtain ⟨hm1, hm2, hd1, hd2, hy⟩ := h
  have hb := cdays_daysInMonth_le (isLeapYear d.year) d.month (by omega) hm1
  have h13 := cdays_thirteen (isLeapYear d.year)
  have hys := yearStart_succ d.year hy
  unfold dayNumber
  omega

theorem yearStart_le_dayNumber (d : Date) : yearStart d.year ≤ dayNumber d := by
  unfold dayNumber; omega

/-- Successor step of the serial day number. -/
theorem dayNumber_succDate (d : Date) (h : d.Valid) :
    dayNumber (succDate d) = dayNumber d + 1 := by
  obtain ⟨hm1, hm2, hd1, hd2, hy⟩ := h
  unfold succDate
  split
  next hlt =>
    unfold dayNumber
    dsimp only
    omega
  next hge =>
    split
    next hlt12 =>
      have hc := cdays_succ (isLeapYear d.year) d.month (by omega) hm1
      unfold dayNumber
      dsimp only
      omega
    next hge12 =>
      have hm12 : d.month = 12 := by omega
      have h31 : daysInMonth (isLeapYear d.year) 12 = 31 := by
        cases isLeapYear d.year <;> rfl
      have hday : d.day = 31 := by rw [hm12] at hd2 hge; omega
      have h12 : cdays (isLeapYear d.year) 12 + 31 =
          365 + (if isLeapYear d.year then 1 else 0) := by
        cases isLeapYear d.year <;> rfl
      have hc1 := cdays_one (isLeapYear (d.year + 1))
      have hys := yearStart_succ d.year hy
      unfold dayNumber
      dsimp only
      rw [hm12, hday]
      omega

theorem succDate_valid (d : Date) (h : d.Valid) : (succDate d).Valid := by
  obtain ⟨hm1, hm2, hd1, hd2, hy⟩ := h
  unfold succDate Date.Valid
  split
  next hlt =>
    dsimp only
    exact ⟨hm1, hm2, by omega, by omega, hy⟩
  next hge =>
    split
    next hm12 =>
      dsimp only
      have := daysInMonth_pos (isLeapYear d.year) (d.month + 1) (by omega) (by omega)
      exact ⟨by omega, by omega, le_refl 1, this, hy⟩
    next =>
      dsimp only
      have := daysInMonth_pos (isLeapYear (d.year + 1)) 1 (by norm_num) (by norm_num)
      exact ⟨by norm_num, by norm_num, le_refl 1, this, by omega⟩

/-- The serial day number is injective on valid dates: it separates years,
then months, then days. -/
theorem dayNumber_inj {d1 d2 : Date} (h1 : d1.Valid) (h2 : d2.Valid)
    (he : dayNumber d1 = dayNumber d2) : d1 = d2 := by
  have hyy : d1.year = d2.year := by
    by_contra hne
    rcases Nat.lt_or_ge d1.year d2.year with hlt | hge
    · have ha := dayNumber_lt_yearStart_succ d1 h1
      have hb := yearStart_mono (show d1.year + 1 ≤ d2.year by omega)
      have hc := yearStart_le_dayNumber d2
      omega
    · rcases Nat.lt_or_ge d2.year d1.year with hlt2 | hge2
      · have ha := dayNumber_lt_yearStart_succ d2 h2
        have hb := yearStart_mono (show d2.year + 1 ≤ d1.year by omega)
        have hc := yearStart_le_dayNumber d1
        omega
      · omega
  obtain ⟨hm1, hm2, hd1a, hd1b, hy1⟩ := h1
  obtain ⟨hm1', hm2', hd2a, hd2b, hy2⟩ := h2
  unfold dayNumber at he
  rw [hyy] at he hd1b
  have hmm : d1.month = d2.month := by
    by_contra hne
    rcases Nat.lt_or_ge d1.month d2.month with hlt | hge
    · have ha := cdays_succ (isLeapYear d2.year) d1.month (by omega) hm1
      have hb := cdays_mono (isLeapYear d2.year) (d1.month + 1) (by omega)
        d2.month (by omega) (by omega)
      omega
    · rcases Nat.lt_or_ge d2.month d1.month with hlt2 | hge2
      · have ha := cdays_succ (isLeapYear d2.year) d2.month (by omega) hm1'
        have hb := cdays_mono (isLeapYear d2.year) (d2.month + 1) (by omega)
          d1.month (by omega) (by omega)
        omega
      · omega
  have hdd : d1.day = d2.day := by
    rw [hmm] at he; omega
  cases d1; cases d2
  simp_all

/-- Iterating the calendar successor preserves validity and advances the
serial day number one day at a time. -/
theorem succDate_iterate (d : Date) (h : d.Valid) : ∀ k : Nat,
    (succDate^[k] d).Valid ∧ dayNumber (succDate^[k] d) = dayNumber d + k := by
  intro k
  induction k with
  | zero => simpa using h
  | succ n ih =>
    rw [Function.iterate_succ_apply']
    refine ⟨succDate_valid _ ih.1, ?_⟩
    rw [dayNumber_succDate _ ih.1, ih.2]
    omega

/-! ### DateFormat: `CSV.FORMAT = "%d-%m-%Y"`

`datetime.strptime` (CPython `_strptime`) matches `%d` with pattern
`3[01]|[12]\d|0[1-9]|[1-9]` (one or two digits, value 1-31), `%m` with
`1[0-2]|0[1-9]|[1-9]` (one or two digits, value 1-12) and `%Y` with exactly
four digits, then validates the day against the month length and the year
against `MINYEAR = 1`.  `strftime` emits the day and month zero-padded to two
digits and the year to four digits. -/

def digitChar : Nat → Char
  | 0 => '0'
  | 1 => '1'
  | 2 => '2'
  | 3 => '3'
  | 4 => '4'
  | 5 => '5'
  | 6 => '6'
  | 7 => '7'
  | 8 => '8'
  | 9 => '9'
  | _ => '0'

def digitVal (c : Char) : Nat := c.toNat - 48

/-- Decimal value of a digit string (as matched by a `\d...` pattern). -/
def natOfDigits (cs : List Char) : Nat :=
  cs.foldl (fun a c => a * 10 + digitVal c) 0

/-- Splitting at the literal `-` separators of the format pattern. -/
def splitDash : List Char → List (List Char)
  | [] => [[]]
  | c :: rest =>
    if c = '-' then [] :: splitDash rest
    else
      match splitDash rest with
      | [] => [[c]]
      | h :: t => (c :: h) :: t

/-- The `%d` field: `3[01]|[12]\d|0[1-9]|[1-9]`, i.e. one or two digits with
value 1-31. -/
def checkDayField (cs : List Char) : Option Nat :=
  if cs.all Char.isDigit = true ∧ (cs.length = 1 ∨ cs.length = 2) then
    if 1 ≤ natOfDigits cs ∧ natOfDigits cs ≤ 31 then some (natOfDigits cs)
    else none
  else none

/-- The `%m` field: `1[0-2]|0[1-9]|[1-9]`, i.e. one or two digits with
value 1-12. -/
def checkMonthField (cs : List Char) : Option Nat :=
  if cs.all Char.isDigit = true ∧ (cs.length = 1 ∨ cs.length = 2) then
    if 1 ≤ natOfDigits cs ∧ natOfDigits cs ≤ 12 then some (natOfDigits cs)
    else none
  else none

/-- The `%Y` field: exactly four digits. -/
def checkYearField (cs : List Char) : Option Nat :=
  if cs.all Char.isDigit = true ∧ cs.length = 4 then some (natOfDigits cs)
  else none

/-- `datetime.strptime(text, CSV.FORMAT)`; `none` where Python raises
`ValueError` (pattern mismatch, day out of range for month, year 0). -/
def strptimeDMY (s : String) : Option Date :=
  match splitDash s.toList with
  | [ds, ms, ys] =>
    match checkDayField ds, checkMonthField ms, checkYearField ys with
    | some dv, some mv, some yv =>
      if 1 ≤ yv ∧ dv ≤ daysInMonth (isLeapYear yv) mv then some ⟨dv, mv, yv⟩
      else none
    | _, _, _ => none
  | _ => none

/-- Two-digit zero-padded decimal (`%d`, `%m` output). -/
def pad2 (n : Nat) : List Char :=
  if n < 10 then ['0', digitChar n]
  else [digitChar (n / 10), digitChar (n % 10)]

/-- Four-digit zero-padded decimal (`%Y` output). -/
def pad4 (n : Nat) : List Char :=
  [digitChar (n / 1000 % 10), digitChar (n / 100 % 10),
   digitChar (n / 10 % 10), digitChar (n % 10)]

/-- `date.strftime(CSV.FORMAT)` (used when adding entries and querying). -/
def strftimeDMY (d : Date) : String :=
  String.mk (pad2 d.day ++ ('-' :: (pad2 d.month ++ ('-' :: pad4 d.year))))

/-! ### Round-trip lemmas for the date format -/

theorem digitVal_digitChar : ∀ n, n < 10 → digitVal (digitChar n) = n := by decide

theorem digitChar_isDigit : ∀ n, n < 10 → (digitChar n).isDigit = true := by decide

theorem digitChar_ne_dash : ∀ n, n < 10 → digitChar n ≠ '-' := by decide

theorem natOfDigits_pad2 (n : Nat) (h : n < 100) : natOfDigits (pad2 n) = n := by
  unfold pad2
  split
  next h10 =>
    simp only [natOfDigits, List.foldl_cons, List.foldl_nil]
    rw [digitVal_digitChar n (by omega)]
    rw [show digitVal '0' = 0 from rfl]
    omega
  next h10 =>
    simp only [natOfDigits, List.foldl_cons, List.foldl_nil]
    rw [digitVal_digitChar (n / 10) (by omega), digitVal_digitChar (n % 10) (by omega)]
    omega

theorem natOfDigits_pad4 (n : Nat) (h : n < 10000) : natOfDigits (pad4 n) = n := by
  unfold pad4
  simp only [natOfDigits, List.foldl_cons, List.foldl_nil]
  rw [digitVal_digitChar (n / 1000 % 10) (by omega),
    digitVal_digitChar (n / 100 % 10) (by omega),
    digitVal_digitChar (n / 10 % 10) (by omega),
    digitVal_digitChar (n % 10) (by omega)]
  omega

theorem pad2_ne_dash (n : Nat) (h : n < 100) : ∀ c ∈ pad2 n, c ≠ '-' := by
  unfold pad2
  split
  next h10 =>
    intro c hc
    simp only [List.mem_cons, List.not_mem_nil, or_false] at hc
    rcases hc with rfl | rfl
    · decide
    · exact digitChar_ne_dash n (by omega)
  next h10 =>
    intro c hc
    simp only [List.mem_cons, List.not_mem_nil, or_false] at hc
    rcases hc with rfl | rfl
    · exact digitChar_ne_dash (n / 10) (by omega)
    · exact digitChar_ne_dash (n % 10) (by omega)

theorem pad4_ne_dash (n : Nat) : ∀ c ∈ pad4 n, c ≠ '-' := by
  unfold pad4
  intro c hc
  simp only [List.mem_cons, List.not_mem_nil, or_false] at hc
  rcases hc with h | h | h | h <;> subst h
  · exact digitChar_ne_dash (n / 1000 % 10) (by omega)
  · exact digitChar_ne_dash (n / 100 % 10) (by omega)
  · exact digitChar_ne_dash (n / 10 % 10) (by omega)
  · exact digitChar_ne_dash (n % 10) (by omega)

theorem pad2_digits (n : Nat) (h : n < 100) : (pad2 n).all Char.isDigit = true := by
  unfold pad2
  split
  next h10 =>
    simp only [List.all_cons, List.all_nil, Bool.and_true]
    rw [digitChar_isDigit n (by omega)]
    rfl
  next h10 =>
    simp only [List.all_cons, List.all_nil, Bool.and_true]
    rw [digitChar_isDigit (n / 10) (by omega), digitChar_isDigit (n % 10) (by omega)]
    rfl

theorem pad4_digits (n : Nat) : (pad4 n).all Char.isDigit = true := by
  unfold pad4
  simp only [List.all_cons, List.all_nil, Bool.and_true]
  rw [digitChar_isDigit (n / 1000 % 10) (by omega),
    digitChar_isDigit (n / 100 % 10) (by omega),
    digitChar_isDigit (n / 10 % 10) (by omega),
    digitChar_isDigit (n % 10) (by omega)]
  rfl

theorem pad2_length (n : Nat) : (pad2 n).length = 2 := by
  unfold pad2; split <;> rfl

theorem pad4_length (n : Nat) : (pad4 n).length = 4 := rfl

theorem splitDash_no_dash (cs : List Char) (h : ∀ c ∈ cs, c ≠ '-') :
    splitDash cs = [cs] := by
  induction cs with
  | nil => rfl
  | cons c rest ih =>
    have hc : c ≠ '-' := h c (by simp)
    have hrest := ih (fun x hx => h x (by simp [hx]))
    simp [splitDash, hc, hrest]

theorem splitDash_append (as : List Char) (ha : ∀ c ∈ as, c ≠ '-')
    (rest : List Char) : splitDash (as ++ '-' :: rest) = as :: splitDash rest := by
  induction as with
  | nil => simp [splitDash]
  | cons c cs ih =>
    have hc : c ≠ '-' := ha c (by simp)
    have ihc := ih (fun x hx => ha x (by simp [hx]))
    show splitDash (c :: (cs ++ '-' :: rest)) = (c :: cs) :: splitDash rest
    rw [splitDash, if_neg hc, ihc]

theorem checkDayField_pad2 (n : Nat) (h1 : 1 ≤ n) (h2 : n ≤ 31) :
    checkDayField (pad2 n) = some n := by
  unfold checkDayField
  rw [if_pos ⟨pad2_digits n (by omega), Or.inr (pad2_length n)⟩]
  rw [natOfDigits_pad2 n (by omega)]
  rw [if_pos ⟨h1, h2⟩]

theorem checkMonthField_pad2 (n : Nat) (h1 : 1 ≤ n) (h2 : n ≤ 12) :
    checkMonthField (pad2 n) = some n := by
  unfold checkMonthField
  rw [if_pos ⟨pad2_digits n (by omega), Or.inr (pad2_length n)⟩]
  rw [natOfDigits_pad2 n (by omega)]
  rw [if_pos ⟨h1, h2⟩]

theorem checkYearField_pad4 (n : Nat) (h : n < 10000) :
    checkYearField (pad4 n) = some n := by
  unfold checkYearField
  rw [if_pos ⟨pad4_digits n, pad4_length n⟩]
  rw [natOfDigits_pad4 n h]

/-- Formatting a valid date and parsing the text back recovers the date. -/
theorem strptime_strftime (d : Date) (h : d.Valid) (h9999 : d.year ≤ 9999) :
    strptimeDMY (strftimeDMY d) = some d := by
  obtain ⟨hm1, hm2, hd1, hd2, hy⟩ := h
  have hdim : daysInMonth (isLeapYear d.year) d.month ≤ 31 := by
    have : ∀ (L : Bool) (m : Nat), m < 13 → daysInMonth L m ≤ 31 := by decide
    exact this _ _ (by omega)
  have hsplit : splitDash (strftimeDMY d).toList
      = [pad2 d.day, pad2 d.month, pad4 d.year] := by
    show splitDash (pad2 d.day ++ ('-' :: (pad2 d.month ++ ('-' :: pad4 d.year)))) = _
    rw [splitDash_append (pad2 d.day) (pad2_ne_dash d.day (by omega)),
      splitDash_append (pad2 d.month) (pad2_ne_dash d.month (by omega)),
      splitDash_no_dash (pad4 d.year) (pad4_ne_dash d.year)]
  unfold strptimeDMY
  simp only [hsplit, checkDayField_pad2 d.day hd1 (by omega),
    checkMonthField_pad2 d.month hm1 hm2, checkYearField_pad4 d.year (by omega)]
  rw [if_pos ⟨hy, hd2⟩]

/-! ### Ledger store and range query (`class CSV`) -/

/-- A raw CSV data row as produced by `pd.read_csv`: the date still text, the
amount already numeric.  The description cell is `Option String` because
`pd.read_csv` reads an empty description field (a legal UI input — the
description text box defaults to "") as NaN, embedded here as `none`. -/
structure Row where
  date : String
  amount : ℚ
  category : String
  description : Option String
deriving DecidableEq

/-- A transaction row after `pd.to_datetime(df["date"], format=CSV.FORMAT)`.
As in `Row`, a NaN description (empty CSV field) is `none`. -/
structure Txn where
  date : Date
  amount : ℚ
  category : String
  description : Option String
deriving DecidableEq

/-- The Python exceptions that can escape the modelled operations. -/
inductive PdError where
  | fileNotFound
  | formatError
  | valueError
deriving DecidableEq

/-- `CSV.initialize_csv`: creates an empty (header-only) ledger file when the
file is absent; reading succeeds otherwise and nothing is written. -/
def initialize_csv : Option (List Row) → Option (List Row)
  | none => some []
  | some rows => some rows

/-- `df.loc[mask]`: the rows whose mask entry is `True`, in frame order. -/
def maskSelect {α : Type} : List α → List Bool → List α
  | [], _ => []
  | _ :: _, [] => []
  | x :: xs, b :: bs => if b then x :: maskSelect xs bs else maskSelect xs bs

/-- `pd.to_datetime(df["date"], format=CSV.FORMAT)`: parses every date cell,
raising (here `none`) if any cell fails to parse. -/
def toDatetimeRows (rows : List Row) : Option (List Txn) :=
  rows.mapM (fun r => (strptimeDMY r.date).map
    (fun d => ⟨d, r.amount, r.category, r.description⟩))

/-- `CSV.get_transactions(start_date, end_date)`: reads the whole file,
converts the date column, parses both bounds, and keeps the rows with
`start_date <= date <= end_date` (timestamps compare by serial day number). -/
def get_transactions (file : Option (List Row)) (start_date end_date : String) :
    Except PdError (List Txn) :=
  match file with
  | none => Except.error PdError.fileNotFound
  | some rows =>
    match toDatetimeRows rows with
    | none => Except.error PdError.formatError
    | some df =>
      match strptimeDMY start_date, strptimeDMY end_date with
      | some sd, some ed =>
        Except.ok (maskSelect df (df.map (fun t =>
          decide (dayNumber sd ≤ dayNumber t.date) &&
            decide (dayNumber t.date ≤ dayNumber ed))))
      | _, _ => Except.error PdError.formatError

/-! ### Aggregator (inline expressions of `create_visualizations` / `main`) -/

/-- `series.sum()` of an amount column (0 on an empty series). -/
def seriesSum (l : List ℚ) : ℚ := l.foldl (· + ·) 0

/-- `df[df["category"] == category_filter]`. -/
def filtered_data (df : List Txn) (category_filter : String) : List Txn :=
  maskSelect df (df.map (fun t => t.category == category_filter))

/-- `total_income = df[df["category"] == "Income"]["amount"].sum()`. -/
def total_income (df : List Txn) : ℚ :=
  seriesSum ((filtered_data df "Income").map (fun t => t.amount))

/-- `total_expense = df[df["category"] == "Expense"]["amount"].sum()`. -/
def total_expense (df : List Txn) : ℚ :=
  seriesSum ((filtered_data df "Expense").map (fun t => t.amount))

/-- `savings = total_income - total_expense` (the net metric). -/
def savings (df : List Txn) : ℚ := total_income df - total_expense df

/-- `savings_percent = (savings / total_income * 100) if total_income > 0 else 0`. -/
def savings_percent (ti te : ℚ) : ℚ :=
  if 0 < ti then (ti - te) / ti * 100 else 0

/-- First-occurrence list of the distinct keys of a column (the key set of
`groupby`; pandas additionally sorts the keys, an ordering no claim here
depends on). -/
def uniqueKeys : List String → List String
  | [] => []
  | k :: ks => k :: uniqueKeys (ks.filter (fun x => !(x == k)))
termination_by l => l.length
decreasing_by
  exact Nat.lt_succ_of_le (List.length_filter_le _ _)

/-- `grouped_data = filtered_data.groupby("description")["amount"].sum()`:
one entry per distinct non-NaN description of the category, carrying the sum
of the amounts grouped under it.  `groupby` runs with its default
`dropna=True`, so rows whose description is NaN (`none`) belong to no group
and their amounts appear in no entry. -/
def grouped_data (df : List Txn) (category_filter : String) : List (String × ℚ) :=
  (uniqueKeys ((filtered_data df category_filter).filterMap
      (fun t => t.description))).map
    (fun k => (k, seriesSum (((filtered_data df category_filter).filter
      (fun t => t.description == some k)).map (fun t => t.amount))))

/-! ### Resampling (`df_indexed[...].resample(...).sum()`) -/

/-- The `(date, amount)` pairs of a date-indexed frame. -/
def dateAmount (df : List Txn) : List (Date × ℚ) :=
  df.map (fun t => (t.date, t.amount))

/-- `index.min()` (serial numbers). -/
def listMinNat : List Nat → Option Nat
  | [] => none
  | x :: xs => some (xs.foldl min x)

/-- `index.max()` (serial numbers). -/
def listMaxNat : List Nat → Option Nat
  | [] => none
  | x :: xs => some (xs.foldl max x)

/-- `.resample("D").sum()`: one bin per calendar day from the earliest to the
latest index entry, each bin holding the sum of the amounts falling on that
day (0 for days with no rows). -/
def resampleD_sum (rows : List (Date × ℚ)) : List (Date × ℚ) :=
  match listMinNat (rows.map (fun p => dayNumber p.1)),
      listMaxNat (rows.map (fun p => dayNumber p.1)) with
  | some lo, some hi =>
    match rows.find? (fun p => dayNumber p.1 == lo) with
    | some p0 =>
      (List.range (hi - lo + 1)).map (fun k =>
        (succDate^[k] p0.1,
         seriesSum ((rows.filter (fun p => dayNumber p.1 == lo + k)).map
           (fun p => p.2))))
    | none => []
  | _, _ => []

/-- Linear index of a calendar month. -/
def monthIdx (d : Date) : Nat := 12 * d.year + (d.month - 1)

/-- The last day of the month with linear index `i` — the bin label
`resample("M")` uses. -/
def monthEndDate (i : Nat) : Date :=
  ⟨daysInMonth (isLeapYear (i / 12)) (i % 12 + 1), i % 12 + 1, i / 12⟩

/-- `.resample("M").sum()`: one bin per calendar month from the earliest to
the latest index entry, labelled by the *last* day of the month, each bin
holding the sum of the amounts falling in that month. -/
def resampleM_sum (rows : List (Date × ℚ)) : List (Date × ℚ) :=
  match listMinNat (rows.map (fun p => monthIdx p.1)),
      listMaxNat (rows.map (fun p => monthIdx p.1)) with
  | some lo, some hi =>
    (List.range (hi - lo + 1)).map (fun k =>
      (monthEndDate (lo + k),
       seriesSum ((rows.filter (fun p => monthIdx p.1 == lo + k)).map
         (fun p => p.2))))
  | _, _ => []

/-! ### Combined Income/Expense/Net table (`pd.DataFrame({...})`) -/

/-- Pointwise subtraction of the Income and Expense columns: any missing
(NaN) operand makes the Net entry missing (NaN). -/
def netOf : Option ℚ → Option ℚ → Option ℚ
  | some a, some b => some (a - b)
  | _, _ => none

/-- Alignment lookup of a series at a bucket date (`none` is NaN). -/
def seriesGet (s : List (Date × ℚ)) (d : Date) : Option ℚ :=
  (s.find? (fun p => dayNumber p.1 == dayNumber d)).map (fun p => p.2)

/-- Sorted union of two timestamp indexes (pandas index alignment). -/
def mergeUnion : List Date → List Date → List Date
  | [], ys => ys
  | x :: xs, [] => x :: xs
  | x :: xs, y :: ys =>
    if dayNumber x < dayNumber y then x :: mergeUnion xs (y :: ys)
    else if dayNumber y < dayNumber x then y :: mergeUnion (x :: xs) ys
    else x :: mergeUnion xs ys
termination_by a b => a.length + b.length

/-- `combined_df = pd.DataFrame({'Income': income_ts["amount"] if not
income_ts.empty else 0, 'Expense': ...})` followed by
`combined_df['Net'] = combined_df['Income'] - combined_df['Expense']`.
Columns are `Option ℚ` because alignment introduces NaN (`none`) where one
series lacks a bucket; when a whole series is empty the scalar `0` is
broadcast instead, and when both are empty pandas raises `ValueError`. -/
def combined_df (income_ts expense_ts : List (Date × ℚ)) :
    Except PdError (List (Date × Option ℚ × Option ℚ × Option ℚ)) :=
  match income_ts, expense_ts with
  | [], [] => Except.error PdError.valueError
  | [], e0 :: es => Except.ok ((e0 :: es).map (fun p =>
      (p.1, some 0, some p.2, netOf (some 0) (some p.2))))
  | i0 :: is, [] => Except.ok ((i0 :: is).map (fun p =>
      (p.1, some p.2, some 0, netOf (some p.2) (some 0))))
  | i0 :: is, e0 :: es =>
    Except.ok ((mergeUnion ((i0 :: is).map (fun p => p.1))
        ((e0 :: es).map (fun p => p.1))).map (fun d =>
      (d, seriesGet (i0 :: is) d, seriesGet (e0 :: es) d,
        netOf (seriesGet (i0 :: is) d) (seriesGet (e0 :: es) d))))

/-! ### Basic lemmas about the embedded pandas operations -/

theorem maskSelect_map_filter {α : Type} (l : List α) (p : α → Bool) :
    maskSelect l (l.map p) = l.filter p := by
  induction l with
  | nil => rfl
  | cons x xs ih =>
    simp only [List.map_cons, maskSelect, List.filter_cons]
    by_cases hx : p x = true
    · rw [if_pos hx, hx, ih]
      simp
    · have hfx : p x = false := by revert hx; cases p x <;> simp
      rw [if_neg hx, ih, hfx]
      simp

theorem seriesSum_eq_sum (l : List ℚ) : seriesSum l = l.sum := by
  have key : ∀ (l : List ℚ) (a : ℚ), l.foldl (· + ·) a = a + l.sum := by
    intro l
    induction l with
    | nil => intro a; simp
    | cons x xs ih => intro a; simp [List.foldl_cons, ih, List.sum_cons]; ring
  rw [seriesSum, key, zero_add]

theorem foldl_min_le_init (xs : List Nat) : ∀ x, xs.foldl min x ≤ x := by
  induction xs with
  | nil => intro x; simp
  | cons a as ih =>
    intro x
    exact le_trans (ih (min x a)) (min_le_left x a)

theorem foldl_min_le_mem (xs : List Nat) : ∀ x y, y ∈ xs → xs.foldl min x ≤ y := by
  induction xs with
  | nil => intro x y hy; cases hy
  | cons a as ih =>
    intro x y hy
    rcases List.mem_cons.mp hy with rfl | hy
    · exact le_trans (foldl_min_le_init as (min x y)) (min_le_right x y)
    · exact ih (min x a) y hy

theorem foldl_min_mem (xs : List Nat) : ∀ x, xs.foldl min x = x ∨ xs.foldl min x ∈ xs := by
  induction xs with
  | nil => intro x; left; rfl
  | cons a as ih =>
    intro x
    rcases ih (min x a) with h | h
    · rcases min_choice x a with hm | hm
      · left; rw [List.foldl_cons, h, hm]
      · right; rw [List.foldl_cons, h, hm]; exact List.mem_cons_self a as
    · right; exact List.mem_cons_of_mem a h

theorem foldl_max_init_le (xs : List Nat) : ∀ x, x ≤ xs.foldl max x := by
  induction xs with
  | nil => intro x; simp
  | cons a as ih =>
    intro x
    exact le_trans (le_max_left x a) (ih (max x a))

theorem foldl_max_mem_le (xs : List Nat) : ∀ x y, y ∈ xs → y ≤ xs.foldl max x := by
  induction xs with
  | nil => intro x y hy; cases hy
  | cons a as ih =>
    intro x y hy
    rcases List.mem_cons.mp hy with rfl | hy
    · exact le_trans (le_max_right x y) (foldl_max_init_le as (max x y))
    · exact ih (max x a) y hy

theorem foldl_max_mem (xs : List Nat) : ∀ x, xs.foldl max x = x ∨ xs.foldl max x ∈ xs := by
  induction xs with
  | nil => intro x; left; rfl
  | cons a as ih =>
    intro x
    rcases ih (max x a) with h | h
    · rcases max_choice x a with hm | hm
      · left; rw [List.foldl_cons, h, hm]
      · right; rw [List.foldl_cons, h, hm]; exact List.mem_cons_self a as
    · right; exact List.mem_cons_of_mem a h

/-- `index.min()` is a member of the index and a lower bound of it. -/
theorem listMinNat_spec (l : List Nat) (lo : Nat) (h : listMinNat l = some lo) :
    lo ∈ l ∧ ∀ y ∈ l, lo ≤ y := by
  match l with
  | [] => cases h
  | x :: xs =>
    have hval : xs.foldl min x = lo := by
      simpa [listMinNat] using h
    constructor
    · rcases foldl_min_mem xs x with hm | hm
      · rw [← hval, hm]; exact List.mem_cons_self x xs
      · rw [← hval]; exact List.mem_cons_of_mem x hm
    · intro y hy
      rcases List.mem_cons.mp hy with rfl | hy
      · rw [← hval]; exact foldl_min_le_init xs y
      · rw [← hval]; exact foldl_min_le_mem xs x y hy

/-- `index.max()` is a member of the index and an upper bound of it. -/
theorem listMaxNat_spec (l : List Nat) (hi : Nat) (h : listMaxNat l = some hi) :
    hi ∈ l ∧ ∀ y ∈ l, y ≤ hi := by
  match l with
  | [] => cases h
  | x :: xs =>
    have hval : xs.foldl max x = hi := by
      simpa [listMaxNat] using h
    constructor
    · rcases foldl_max_mem xs x with hm | hm
      · rw [← hval, hm]; exact List.mem_cons_self x xs
      · rw [← hval]; exact List.mem_cons_of_mem x hm
    · intro y hy
      rcases List.mem_cons.mp hy with rfl | hy
      · rw [← hval]; exact foldl_max_init_le xs y
      · rw [← hval]; exact foldl_max_mem_le xs x y hy

theorem listMinNat_isSome {l : List Nat} (h : l ≠ []) :
    ∃ lo, listMinNat l = some lo := by
  match l with
  | [] => exact absurd rfl h
  | x :: xs => exact ⟨xs.foldl min x, rfl⟩

theorem listMaxNat_isSome {l : List Nat} (h : l ≠ []) :
    ∃ hi, listMaxNat l = some hi := by
  match l with
  | [] => exact absurd rfl h
  | x :: xs => exact ⟨xs.foldl max x, rfl⟩

/-- Every element of the merged index comes from one of the two indexes. -/
theorem mem_of_mem_mergeUnion :
    ∀ (xs ys : List Date) (d : Date), d ∈ mergeUnion xs ys → d ∈ xs ∨ d ∈ ys := by
  intro xs ys
  induction xs, ys using mergeUnion.induct with
  | case1 ys =>
    intro d hd
    exact Or.inr (by simpa [mergeUnion] using hd)
  | case2 x xs =>
    intro d hd
    exact Or.inl (by simpa [mergeUnion] using hd)
  | case3 x xs y ys hxy ih =>
    intro d hd
    rw [mergeUnion, if_pos hxy] at hd
    rcases List.mem_cons.mp hd with rfl | hd
    · exact Or.inl (List.mem_cons_self _ _)
    · rcases ih d hd with h | h
      · exact Or.inl (List.mem_cons_of_mem _ h)
      · exact Or.inr h
  | case4 x xs y ys hxy hyx ih =>
    intro d hd
    rw [mergeUnion, if_neg hxy, if_pos hyx] at hd
    rcases List.mem_cons.mp hd with rfl | hd
    · exact Or.inr (List.mem_cons_self _ _)
    · rcases ih d hd with h | h
      · exact Or.inl h
      · exact Or.inr (List.mem_cons_of_mem _ h)
  | case5 x xs y ys hxy hyx ih =>
    intro d hd
    rw [mergeUnion, if_neg hxy, if_neg hyx] at hd
    rcases List.mem_cons.mp hd with rfl | hd
    · exact Or.inl (List.mem_cons_self _ _)
    · rcases ih d hd with h | h
      · exact Or.inl (List.mem_cons_of_mem _ h)
      · exact Or.inr (List.mem_cons_of_mem _ h)

/-- The merged index covers exactly the union of the two key sets. -/
theorem mergeUnion_keys :
    ∀ (xs ys : List Date) (n : Nat),
      n ∈ (mergeUnion xs ys).map dayNumber ↔
        n ∈ xs.map dayNumber ∨ n ∈ ys.map dayNumber := by
  intro xs ys
  induction xs, ys using mergeUnion.induct with
  | case1 ys =>
    intro n; simp [mergeUnion]
  | case2 x xs =>
    intro n; simp [mergeUnion]
  | case3 x xs y ys hxy ih =>
    intro n
    rw [mergeUnion, if_pos hxy]
    simp only [List.map_cons, List.mem_cons] at *
    constructor
    · rintro (rfl | h)
      · exact Or.inl (Or.inl rfl)
      · rcases (ih n).mp h with h | h
        · exact Or.inl (Or.inr h)
        · exact Or.inr h
    · rintro ((rfl | h) | h)
      · exact Or.inl rfl
      · exact Or.inr ((ih n).mpr (Or.inl h))
      · exact Or.inr ((ih n).mpr (Or.inr h))
  | case4 x xs y ys hxy hyx ih =>
    intro n
    rw [mergeUnion, if_neg hxy, if_pos hyx]
    simp only [List.map_cons, List.mem_cons] at *
    constructor
    · rintro (rfl | h)
      · exact Or.inr (Or.inl rfl)
      · rcases (ih n).mp h with h | h
        · exact Or.inl h
        · exact Or.inr (Or.inr h)
    · rintro (h | (rfl | h))
      · exact Or.inr ((ih n).mpr (Or.inl h))
      · exact Or.inl rfl
      · exact Or.inr ((ih n).mpr (Or.inr h))
  | case5 x xs y ys hxy hyx ih =>
    intro n
    rw [mergeUnion, if_neg hxy, if_neg hyx]
    have hk : dayNumber x = dayNumber y := by omega
    simp only [List.map_cons, List.mem_cons] at *
    constructor
    · rintro (rfl | h)
      · exact Or.inl (Or.inl rfl)
      · rcases (ih n).mp h with h | h
        · exact Or.inl (Or.inr h)
        · exact Or.inr (Or.inr h)
    · rintro ((rfl | h) | (rfl | h))
      · exact Or.inl rfl
      · exact Or.inr ((ih n).mpr (Or.inl h))
      · exact Or.inl (hk.symm)
      · exact Or.inr ((ih n).mpr (Or.inr h))

/-- Merging two strictly ascending indexes yields a strictly ascending
index. -/
theorem mergeUnion_pairwise :
    ∀ (xs ys : List Date),
      xs.Pairwise (fun a b => dayNumber a < dayNumber b) →
      ys.Pairwise (fun a b => dayNumber a < dayNumber b) →
      (mergeUnion xs ys).Pairwise (fun a b => dayNumber a < dayNumber b) := by
  intro xs ys
  induction xs, ys using mergeUnion.induct with
  | case1 ys =>
    intro _ hy
    simpa [mergeUnion] using hy
  | case2 x xs =>
    intro hx _
    simpa [mergeUnion] using hx
  | case3 x xs y ys hxy ih =>
    intro hx hy
    rw [mergeUnion, if_pos hxy]
    rw [List.pairwise_cons] at hx ⊢
    refine ⟨?_, ih hx.2 hy⟩
    intro b hb
    rcases mem_of_mem_mergeUnion _ _ b hb with h | h
    · exact hx.1 b h
    · rcases List.mem_cons.mp h with rfl | h
      · exact hxy
      · rw [List.pairwise_cons] at hy
        exact lt_trans hxy (hy.1 b h)
  | case4 x xs y ys hxy hyx ih =>
    intro hx hy
    rw [mergeUnion, if_neg hxy, if_pos hyx]
    rw [List.pairwise_cons] at hy ⊢
    refine ⟨?_, ih hx hy.2⟩
    intro b hb
    rcases mem_of_mem_mergeUnion _ _ b hb with h | h
    · rcases List.mem_cons.mp h with rfl | h
      · exact hyx
      · rw [List.pairwise_cons] at hx
        exact lt_trans hyx (hx.1 b h)
    · exact hy.1 b h
  | case5 x xs y ys hxy hyx ih =>
    intro hx hy
    rw [mergeUnion, if_neg hxy, if_neg hyx]
    have hk : dayNumber x = dayNumber y := by omega
    rw [List.pairwise_cons] at hx hy ⊢
    refine ⟨?_, ih hx.2 hy.2⟩
    intro b hb
    rcases mem_of_mem_mergeUnion _ _ b hb with h | h
    · exact hx.1 b h
    · rw [hk]; exact hy.1 b h

/-- A series has a value at a date exactly when the date's key occurs in its
index. -/
theorem seriesGet_eq_none_iff (s : List (Date × ℚ)) (d : Date) :
    seriesGet s d = none ↔ dayNumber d ∉ s.map (fun p => dayNumber p.1) := by
  unfold seriesGet
  rw [Option.map_eq_none', List.find?_eq_none]
  constructor
  · intro h hc
    rcases List.mem_map.mp hc with ⟨p, hp, hk⟩
    have hcontra := h p hp
    rw [hk] at hcontra
    simp at hcontra
  · intro h p hp
    intro hc
    exact h (List.mem_map.mpr ⟨p, hp, by simpa using hc⟩)

/-- A found series value comes from an index entry with the same key. -/
theorem seriesGet_eq_some (s : List (Date × ℚ)) (d : Date) (v : ℚ)
    (h : seriesGet s d = some v) :
    ∃ p ∈ s, dayNumber p.1 = dayNumber d ∧ p.2 = v := by
  unfold seriesGet at h
  rcases Option.map_eq_some'.mp h with ⟨p, hfind, hv⟩
  exact ⟨p, List.mem_of_find?_eq_some hfind, by
    simpa using List.find?_some hfind, hv⟩

/-- `filter` then `map` commutes with `map` then `filter`. -/
theorem map_filter_comm {α β : Type} (f : α → β) (p : β → Bool) (l : List α) :
    (l.map f).filter p = (l.filter (fun a => p (f a))).map f := by
  induction l with
  | nil => rfl
  | cons x xs ih =>
    simp only [List.map_cons, List.filter_cons]
    by_cases hx : p (f x) = true
    · rw [if_pos hx, if_pos hx, List.map_cons, ih]
    · rw [if_neg hx, if_neg hx, ih]

/-- Splitting a sum along a boolean predicate. -/
theorem sum_filter_split {α : Type} (val : α → ℚ) (p : α → Bool) (l : List α) :
    ((l.filter p).map val).sum + ((l.filter (fun a => !(p a))).map val).sum
      = (l.map val).sum := by
  induction l with
  | nil => simp
  | cons x xs ih =>
    simp only [List.filter_cons, List.map_cons, List.sum_cons]
    by_cases hx : p x = true
    · rw [if_pos hx, hx]
      simp only [Bool.not_true, Bool.false_eq_true, if_false, List.map_cons,
        List.sum_cons]
      rw [← ih]; ring
    · have hfx : p x = false := by revert hx; cases p x <;> simp
      rw [if_neg hx, hfx]
      simp only [Bool.not_false, if_true, List.map_cons, List.sum_cons]
      rw [← ih]; ring

theorem uniqueKeys_subset_fuel : ∀ (n : Nat) (l : List String),
    l.length ≤ n → ∀ k ∈ uniqueKeys l, k ∈ l := by
  intro n
  induction n with
  | zero =>
    intro l hlen k hk
    match l with
    | [] => simp [uniqueKeys] at hk
    | a :: as => exact absurd hlen (by simp)
  | succ n ih =>
    intro l hlen k hk
    match l with
    | [] => simp [uniqueKeys] at hk
    | a :: as =>
      rw [uniqueKeys] at hk
      rcases List.mem_cons.mp hk with rfl | hk
      · exact List.mem_cons_self _ _
      · have hlen2 : (as.filter (fun x => !(x == a))).length ≤ n := by
          have := List.length_filter_le (fun x => !(x == a)) as
          simp only [List.length_cons] at hlen
          omega
        exact List.mem_cons_of_mem _ (List.mem_of_mem_filter (ih _ hlen2 k hk))

theorem uniqueKeys_subset (l : List String) (k : String)
    (h : k ∈ uniqueKeys l) : k ∈ l :=
  uniqueKeys_subset_fuel l.length l (le_refl _) k h

/-- Filtering by `q` after a filter by a predicate implied by `q` is
filtering by `q` alone. -/
theorem filter_filter_of_imp {α : Type} (p q : α → Bool) (l : List α)
    (h : ∀ a ∈ l, q a = true → p a = true) :
    (l.filter p).filter q = l.filter q := by
  induction l with
  | nil => rfl
  | cons x xs ih =>
    have ih2 := ih (fun a ha hq => h a (List.mem_cons_of_mem _ ha) hq)
    cases hp : p x
    · have hq : q x = false := by
        cases hq : q x
        · rfl
        · rw [h x (List.mem_cons_self _ _) hq] at hp; cases hp
      rw [List.filter_cons, List.filter_cons, hp, hq]
      simp only [Bool.false_eq_true, if_false]
      exact ih2
    · rw [List.filter_cons, hp]
      simp only [if_true]
      rw [List.filter_cons]
      cases hq : q x <;> simp [ih2, List.filter_cons, hq, hp]

/-- Grouping a list by a key and summing each group partitions the total sum
(fuel-indexed strong induction). -/
theorem groupSum_fuel {α : Type} (key : α → String) (val : α → ℚ) :
    ∀ (n : Nat) (rows : List α), rows.length ≤ n →
      ((uniqueKeys (rows.map key)).map
        (fun k => ((rows.filter (fun r => key r == k)).map val).sum)).sum
        = (rows.map val).sum := by
  intro n
  induction n with
  | zero =>
    intro rows hlen
    match rows with
    | [] => simp [uniqueKeys]
    | r :: rest => exact absurd hlen (by simp)
  | succ n ih =>
    intro rows hlen
    match rows with
    | [] => simp [uniqueKeys]
    | r :: rest =>
      rw [List.map_cons, uniqueKeys]
      have hmf : (rest.map key).filter (fun x => !(x == key r))
          = (rest.filter (fun t => !(key t == key r))).map key :=
        map_filter_comm key (fun x => !(x == key r)) rest
      rw [hmf, List.map_cons, List.sum_cons]
      have hhead : (r :: rest).filter (fun t => key t == key r)
          = r :: rest.filter (fun t => key t == key r) := by
        simp [List.filter_cons]
      have htail : (uniqueKeys ((rest.filter (fun t => !(key t == key r))).map key)).map
            (fun k => (((r :: rest).filter (fun t => key t == k)).map val).sum)
          = (uniqueKeys ((rest.filter (fun t => !(key t == key r))).map key)).map
            (fun k => (((rest.filter (fun t => !(key t == key r))).filter
              (fun t => key t == k)).map val).sum) := by
        apply List.map_congr_left
        intro k hk
        rcases List.mem_map.mp (uniqueKeys_subset _ _ hk) with ⟨t, ht, rfl⟩
        have hneq : key t ≠ key r := by
          have hmem := List.of_mem_filter ht
          simpa using hmem
        have hne2 : (key r == key t) = false := beq_eq_false_iff_ne.mpr (Ne.symm hneq)
        have hcons : (r :: rest).filter (fun a => key a == key t)
            = rest.filter (fun a => key a == key t) := by
          rw [List.filter_cons, hne2]
          simp
        have hff : (rest.filter (fun a => !(key a == key r))).filter
              (fun a => key a == key t)
            = rest.filter (fun a => key a == key t) := by
          apply filter_filter_of_imp
          intro a _ hq
          have hat : key a = key t := by simpa using hq
          have : (key a == key r) = false := beq_eq_false_iff_ne.mpr (by
            rw [hat]; exact hneq)
          rw [this]
          rfl
        rw [hcons, hff]
      rw [htail]
      have hlen2 : (rest.filter (fun t => !(key t == key r))).length ≤ n := by
        have := List.length_filter_le (fun t => !(key t == key r)) rest
        simp only [List.length_cons] at hlen
        omega
      rw [ih _ hlen2]
      rw [hhead, List.map_cons, List.sum_cons]
      have hsplit := sum_filter_split val (fun t => key t == key r) rest
      rw [List.map_cons, List.sum_cons, ← hsplit]
      ring

/-- Grouping by a key and summing the groups partitions the total sum. -/
theorem groupSum {α : Type} (key : α → String) (val : α → ℚ) (rows : List α) :
    ((uniqueKeys (rows.map key)).map
      (fun k => ((rows.filter (fun r => key r == k)).map val).sum)).sum
      = (rows.map val).sum :=
  groupSum_fuel key val rows.length rows (le_refl _)

/-! ### Shared characterizations of the embedded operations -/

/-- The range query on an existing, fully parseable ledger is the boolean-mask
filter with inclusive bounds. -/
theorem get_transactions_eq (rows : List Row) (df : List Txn) (s e : String)
    (sd ed : Date) (hdf : toDatetimeRows rows = some df)
    (hs : strptimeDMY s = some sd) (he : strptimeDMY e = some ed) :
    get_transactions (some rows) s e = Except.ok (df.filter (fun t =>
      decide (dayNumber sd ≤ dayNumber t.date) &&
        decide (dayNumber t.date ≤ dayNumber ed))) := by
  simp only [get_transactions, hdf, hs, he]
  rw [maskSelect_map_filter]

/-- `df[df["category"] == c]` is the row filter by category equality. -/
theorem filtered_data_eq (df : List Txn) (c : String) :
    filtered_data df c = df.filter (fun t => t.category == c) :=
  maskSelect_map_filter df (fun t => t.category == c)

/-- Category-mask filtering agrees with propositional string equality. -/
theorem filtered_data_eq_decide (df : List Txn) (c : String) :
    filtered_data df c = df.filter (fun t => decide (t.category = c)) := by
  rw [filtered_data_eq]
  apply List.filter_congr
  intro t _
  by_cases h : t.category = c <;> simp [h]

/-- The non-NaN description cells, as `groupby` (with `dropna=True`) keys
them: the description values of the rows that have one. -/
theorem filterMap_description (rows : List Txn) :
    rows.filterMap (fun t => t.description)
      = (rows.filter (fun t => t.description.isSome)).map
          (fun t => t.description.getD "") := by
  induction rows with
  | nil => rfl
  | cons t ts ih =>
    cases hd : t.description with
    | none => simp [List.filterMap_cons, List.filter_cons, hd, ih]
    | some k => simp [List.filterMap_cons, List.filter_cons, hd, ih]

/-- Selecting the group of a (present) description key never picks up
NaN-description rows, so the group can be carved out of the
present-description rows alone. -/
theorem groupFilter_description (rows : List Txn) (k : String) :
    rows.filter (fun t => t.description == some k)
      = (rows.filter (fun t => t.description.isSome)).filter
          (fun t => t.description.getD "" == k) := by
  induction rows with
  | nil => rfl
  | cons t ts ih =>
    cases hd : t.description with
    | none => simp [List.filter_cons, hd, ih]
    | some k2 =>
      by_cases hk : k2 = k
      · simp [List.filter_cons, hd, hk, ih]
      · simp [List.filter_cons, hd, hk, ih]

/-- The grouped per-description sums of one category add up to the sum over
the category's rows that have a (non-NaN) description. -/
theorem grouped_data_sum (df : List Txn) (c : String) :
    ((grouped_data df c).map (fun p => p.2)).sum
      = seriesSum (((filtered_data df c).filter
          (fun t => t.description.isSome)).map (fun t => t.amount)) := by
  unfold grouped_data
  rw [List.map_map]
  have hcomp : ((fun p : String × ℚ => p.2) ∘ (fun k =>
      (k, seriesSum (((filtered_data df c).filter
        (fun t => t.description == some k)).map (fun t => t.amount)))))
      = fun k => seriesSum (((filtered_data df c).filter
        (fun t => t.description == some k)).map (fun t => t.amount)) := rfl
  rw [hcomp, filterMap_description]
  have hsums : (uniqueKeys (((filtered_data df c).filter
        (fun t => t.description.isSome)).map (fun t => t.description.getD ""))).map
        (fun k => seriesSum (((filtered_data df c).filter
          (fun t => t.description == some k)).map (fun t => t.amount)))
      = (uniqueKeys (((filtered_data df c).filter
        (fun t => t.description.isSome)).map (fun t => t.description.getD ""))).map
        (fun k => ((((filtered_data df c).filter
          (fun t => t.description.isSome)).filter
            (fun t => t.description.getD "" == k)).map (fun t => t.amount)).sum) := by
    apply List.map_congr_left
    intro k _
    rw [groupFilter_description, seriesSum_eq_sum]
  rw [hsums, groupSum (fun t => t.description.getD "") (fun t => t.amount)
    ((filtered_data df c).filter (fun t => t.description.isSome)),
    ← seriesSum_eq_sum]

/-! ### Claim theorems -/

/-- Claim C1: for every ledger whose stored dates parse and every pair of
valid bound dates, the range query succeeds and returns exactly the
transactions whose date `d` satisfies `startDate ≤ d ≤ endDate` (both bounds
inclusive, compared as timestamps), and the result is a sublist of the parsed
ledger, i.e. the relative order of the returned transactions equals their
order in the ledger. -/
theorem C1_range_query_inclusive_stable (rows : List Row) (df : List Txn)
    (s e : String) (sd ed : Date) (hdf : toDatetimeRows rows = some df)
    (hs : strptimeDMY s = some sd) (he : strptimeDMY e = some ed) :
    ∃ out, get_transactions (some rows) s e = Except.ok out ∧
      out = df.filter (fun t => decide (dayNumber sd ≤ dayNumber t.date ∧
        dayNumber t.date ≤ dayNumber ed)) ∧
      out.Sublist df := by
  refine ⟨_, get_transactions_eq rows df s e sd ed hdf hs he, ?_, List.filter_sublist df⟩
  apply List.filter_congr
  intro t _
  by_cases h1 : dayNumber sd ≤ dayNumber t.date <;>
    by_cases h2 : dayNumber t.date ≤ dayNumber ed <;> simp [h1, h2]

/-- Witness for C1 at the spec's own scenario: a two-row January ledger
queried over all of January returns both rows in order. -/
theorem C1_witness :
    ∃ out, get_transactions
        (some [⟨"15-01-2024", 1000, "Income", some "Salary"⟩,
               ⟨"20-01-2024", 200, "Expense", some "Groceries"⟩])
        "01-01-2024" "31-01-2024" = Except.ok out ∧
      out = [⟨⟨15, 1, 2024⟩, 1000, "Income", some "Salary"⟩,
             ⟨⟨20, 1, 2024⟩, 200, "Expense", some "Groceries"⟩].filter (fun t =>
        decide (dayNumber ⟨1, 1, 2024⟩ ≤ dayNumber t.date ∧
          dayNumber t.date ≤ dayNumber ⟨31, 1, 2024⟩)) ∧
      out.Sublist [⟨⟨15, 1, 2024⟩, 1000, "Income", some "Salary"⟩,
                   ⟨⟨20, 1, 2024⟩, 200, "Expense", some "Groceries"⟩] :=
  C1_range_query_inclusive_stable _ _ _ _ ⟨1, 1, 2024⟩ ⟨31, 1, 2024⟩
    (by rfl) (by rfl) (by rfl)

/-- Claim C8: for every ledger whose stored dates parse, if the parsed start
bound is strictly after the parsed end bound, the range query returns the
empty sequence rather than an error. -/
theorem C8_inverted_range_empty (rows : List Row) (df : List Txn)
    (s e : String) (sd ed : Date) (hdf : toDatetimeRows rows = some df)
    (hs : strptimeDMY s = some sd) (he : strptimeDMY e = some ed)
    (hinv : dayNumber ed < dayNumber sd) :
    get_transactions (some rows) s e = Except.ok [] := by
  rw [get_transactions_eq rows df s e sd ed hdf hs he]
  have hnil : df.filter (fun t =>
      decide (dayNumber sd ≤ dayNumber t.date) &&
        decide (dayNumber t.date ≤ dayNumber ed)) = [] := by
    rw [List.filter_eq_nil_iff]
    intro t _
    simp only [Bool.and_eq_true, decide_eq_true_eq, not_and]
    omega
  rw [hnil]

/-- Witness for C8: querying 01-02-2024 .. 01-01-2024 over a non-empty ledger
returns the empty list. -/
theorem C8_witness :
    get_transactions (some [⟨"15-01-2024", 1000, "Income", some "Salary"⟩])
      "01-02-2024" "01-01-2024" = Except.ok [] :=
  C8_inverted_range_empty _ [⟨⟨15, 1, 2024⟩, 1000, "Income", some "Salary"⟩] _ _
    ⟨1, 2, 2024⟩ ⟨1, 1, 2024⟩ (by rfl) (by rfl) (by rfl) (by decide)

/-- Claim C7 counterexample: with the backing file absent, the range query
(the only load-the-ledger operation) raises `FileNotFoundError` — it does not
behave as if `initialize` had run and does not yield an empty result. -/
theorem C7_counterexample :
    get_transactions none "01-01-2024" "31-01-2024"
        = Except.error PdError.fileNotFound ∧
      get_transactions none "01-01-2024" "31-01-2024" ≠ Except.ok [] := by
  constructor
  · rfl
  · intro h
    exact Except.noConfusion h

/-- Claim C7 amended: `get_transactions` on a missing file raises
`FileNotFoundError`; it is `initialize_csv` that makes the missing-file case
safe: it creates an empty ledger when the file is absent, leaves an existing
ledger untouched, and loading after initialization yields an empty result
(not an error) for any valid bounds. -/
theorem C7_amended_initialize_then_load (s e : String) (sd ed : Date)
    (hs : strptimeDMY s = some sd) (he : strptimeDMY e = some ed) :
    get_transactions none s e = Except.error PdError.fileNotFound ∧
    initialize_csv none = some [] ∧
    (∀ rows, initialize_csv (some rows) = some rows) ∧
    get_transactions (initialize_csv none) s e = Except.ok [] := by
  refine ⟨rfl, rfl, fun rows => rfl, ?_⟩
  show get_transactions (some []) s e = Except.ok []
  exact get_transactions_eq [] [] s e sd ed rfl hs he

/-- Witness for the amended C7 at concrete bounds. -/
theorem C7_witness :
    get_transactions none "01-01-2024" "31-01-2024"
        = Except.error PdError.fileNotFound ∧
    initialize_csv none = some [] ∧
    (∀ rows, initialize_csv (some rows) = some rows) ∧
    get_transactions (initialize_csv none) "01-01-2024" "31-01-2024"
        = Except.ok [] :=
  C7_amended_initialize_then_load "01-01-2024" "31-01-2024"
    ⟨1, 1, 2024⟩ ⟨31, 1, 2024⟩ (by rfl) (by rfl)

/-- Claim C2: for every transaction subset, `total_income` is the sum of
`amount` over the rows whose category equals "Income", `total_expense` the
analogue for "Expense", the net figure is income minus expense, and on the
empty subset all three are 0. -/
theorem C2_totals (df : List Txn) :
    total_income df = ((df.filter (fun t => decide (t.category = "Income"))).map
      (fun t => t.amount)).sum ∧
    total_expense df = ((df.filter (fun t => decide (t.category = "Expense"))).map
      (fun t => t.amount)).sum ∧
    savings df = total_income df - total_expense df ∧
    total_income ([] : List Txn) = 0 ∧ total_expense ([] : List Txn) = 0 ∧
    savings ([] : List Txn) = 0 := by
  refine ⟨?_, ?_, rfl, rfl, rfl, by norm_num [savings, total_income, total_expense,
    filtered_data, seriesSum, maskSelect]⟩
  · rw [total_income, filtered_data_eq_decide, seriesSum_eq_sum]
  · rw [total_expense, filtered_data_eq_decide, seriesSum_eq_sum]

/-- Claim C3: the savings rate is `(income - expense) / income * 100` whenever
income is positive (and then the divisor is non-zero), and is defined as `0`
whenever income is not positive, so no division by zero occurs. -/
theorem C3_savings_rate (ti te : ℚ) :
    (0 < ti → savings_percent ti te = (ti - te) / ti * 100 ∧ ti ≠ 0) ∧
    (¬ 0 < ti → savings_percent ti te = 0) := by
  constructor
  · intro h
    rw [savings_percent, if_pos h]
    exact ⟨rfl, ne_of_gt h⟩
  · intro h
    rw [savings_percent, if_neg h]

/-- Witness for C3 at the spec's scenario: income 1000, expense 200 gives a
savings rate of 80 percent; income 0 gives rate 0. -/
theorem C3_witness : savings_percent 1000 200 = 80 ∧ savings_percent 0 500 = 0 := by
  constructor
  · rw [((C3_savings_rate 1000 200).1 (by norm_num)).1]
    norm_num
  · rw [(C3_savings_rate 0 500).2 (by norm_num)]

/-- Claim C9 counterexample: on a subset holding an Income row with a blank
(NaN) description of amount 100 and a "Salary" row of amount 50, the
per-description breakdown for "Income" is just {Salary: 50} — `groupby`
drops the NaN group — so its values sum to 50, while `total_income` is 150:
the breakdown does not partition the category's rows. -/
theorem C9_counterexample :
    ((grouped_data [⟨⟨15, 1, 2024⟩, 100, "Income", none⟩,
        ⟨⟨20, 1, 2024⟩, 50, "Income", some "Salary"⟩] "Income").map
      (fun p => p.2)).sum = 50 ∧
    total_income [⟨⟨15, 1, 2024⟩, 100, "Income", none⟩,
        ⟨⟨20, 1, 2024⟩, 50, "Income", some "Salary"⟩] = 150 ∧
    (50 : ℚ) ≠ 150 := by
  refine ⟨?_, ?_, by norm_num⟩
  · have hkeys : uniqueKeys ((filtered_data [⟨⟨15, 1, 2024⟩, 100, "Income", none⟩,
        ⟨⟨20, 1, 2024⟩, 50, "Income", some "Salary"⟩] "Income").filterMap
          (fun t => t.description)) = ["Salary"] := by
      have h0 : (filtered_data [⟨⟨15, 1, 2024⟩, 100, "Income", none⟩,
          ⟨⟨20, 1, 2024⟩, 50, "Income", some "Salary"⟩] "Income").filterMap
            (fun t => t.description) = ["Salary"] := rfl
      rw [h0]
      simp [uniqueKeys]
    unfold grouped_data
    rw [hkeys]
    have h2 : ((filtered_data [⟨⟨15, 1, 2024⟩, 100, "Income", none⟩,
        ⟨⟨20, 1, 2024⟩, 50, "Income", some "Salary"⟩] "Income").filter
          (fun t => t.description == some "Salary")).map (fun t => t.amount)
        = [(50 : ℚ)] := rfl
    simp only [List.map_cons, List.map_nil, List.sum_cons, List.sum_nil, h2]
    norm_num [seriesSum, List.foldl]
  · have h3 : (filtered_data [⟨⟨15, 1, 2024⟩, 100, "Income", none⟩,
        ⟨⟨20, 1, 2024⟩, 50, "Income", some "Salary"⟩] "Income").map
          (fun t => t.amount) = [(100 : ℚ), 50] := rfl
    unfold total_income
    rw [h3]
    norm_num [seriesSum, List.foldl]

/-- Claim C9 amended: the per-description breakdown sums of a category equal
the sum of `amount` over that category's rows that *have* a description —
`groupby("description")` drops the NaN group produced by blank description
fields — and therefore equal the category's totals figure whenever every row
of the subset has a non-blank description. -/
theorem C9_amended_breakdown_partition (df : List Txn) :
    (∀ c, ((grouped_data df c).map (fun p => p.2)).sum
        = seriesSum (((filtered_data df c).filter
            (fun t => t.description.isSome)).map (fun t => t.amount))) ∧
    ((∀ t ∈ df, t.description.isSome = true) →
      ((grouped_data df "Income").map (fun p => p.2)).sum = total_income df ∧
      ((grouped_data df "Expense").map (fun p => p.2)).sum = total_expense df) := by
  refine ⟨fun c => grouped_data_sum df c, fun hall => ?_⟩
  have hfull : ∀ c, (filtered_data df c).filter
      (fun t => t.description.isSome) = filtered_data df c := by
    intro c
    rw [List.filter_eq_self]
    intro t ht
    rw [filtered_data_eq] at ht
    exact hall t (List.mem_of_mem_filter ht)
  constructor
  · rw [grouped_data_sum df "Income", hfull "Income"]
    rfl
  · rw [grouped_data_sum df "Expense", hfull "Expense"]
    rfl

/-- Witness for the amended C9: on the spec's breakdown scenario (two Salary
rows of 500 and a Bonus row of 100, all with descriptions present) the
breakdown values sum to the Income total. -/
theorem C9_witness :
    ((grouped_data [⟨⟨15, 1, 2024⟩, 500, "Income", some "Salary"⟩,
        ⟨⟨16, 1, 2024⟩, 500, "Income", some "Salary"⟩,
        ⟨⟨17, 1, 2024⟩, 100, "Income", some "Bonus"⟩] "Income").map
      (fun p => p.2)).sum
      = total_income [⟨⟨15, 1, 2024⟩, 500, "Income", some "Salary"⟩,
        ⟨⟨16, 1, 2024⟩, 500, "Income", some "Salary"⟩,
        ⟨⟨17, 1, 2024⟩, 100, "Income", some "Bonus"⟩] :=
  ((C9_amended_breakdown_partition _).2 (by decide)).1

/-- Claim C4 counterexample: the text "5-3-2024" parses successfully under the
fixed pattern (strptime accepts an unpadded day and month), but formatting the
parsed date yields "05-03-2024", not the original text — so the second half of
the round-trip claim fails. -/
theorem C4_counterexample :
    strptimeDMY "5-3-2024" = some ⟨5, 3, 2024⟩ ∧
    strftimeDMY ⟨5, 3, 2024⟩ = "05-03-2024" ∧
    strftimeDMY ⟨5, 3, 2024⟩ ≠ "5-3-2024" := by
  refine ⟨by rfl, by rfl, by decide⟩

/-- Claim C4 amended: for every valid calendar date (year within the 4-digit
range), parsing the formatted text yields the date again; the converse
`format(parse(s)) = s` holds only for texts already in canonical zero-padded
form — i.e. exactly the texts in the image of `format`, where it follows from
the first direction — because `strptime` also accepts unpadded day and month
digits. -/
theorem C4_amended_roundtrip (d : Date) (h : d.Valid) (h4 : d.year ≤ 9999) :
    strptimeDMY (strftimeDMY d) = some d ∧
    ∀ d2, strptimeDMY (strftimeDMY d) = some d2 → strftimeDMY d2 = strftimeDMY d := by
  have h1 := strptime_strftime d h h4
  refine ⟨h1, fun d2 h2 => ?_⟩
  rw [h1] at h2
  cases h2
  rfl

/-- Witness for the amended C4 at 15-01-2024. -/
theorem C4_witness :
    strptimeDMY (strftimeDMY ⟨15, 1, 2024⟩) = some ⟨15, 1, 2024⟩ :=
  (C4_amended_roundtrip ⟨15, 1, 2024⟩ (by decide) (by norm_num)).1

/-- Claim C5 counterexample: combining the resampled series
`[(01-01-2024, 100)]` and `[(02-01-2024, 50)]`, the bucket 02-01-2024 is
absent from the income series and its income cell is NaN (`none`), not `0`,
and the net cell is NaN as well — `pd.DataFrame` alignment introduces NaN,
and the scalar-`0` fallback only applies when a whole series is empty. -/
theorem C5_counterexample :
    combined_df [(⟨1, 1, 2024⟩, 100)] [(⟨2, 1, 2024⟩, 50)]
      = Except.ok [(⟨1, 1, 2024⟩, some 100, none, none),
                   (⟨2, 1, 2024⟩, none, some 50, none)] ∧
    (none : Option ℚ) ≠ some 0 := by
  constructor
  · have hm : mergeUnion [(⟨1, 1, 2024⟩ : Date)] [⟨2, 1, 2024⟩]
        = [⟨1, 1, 2024⟩, ⟨2, 1, 2024⟩] := by
      rw [mergeUnion, if_pos (by decide), mergeUnion]
    simp only [combined_df, List.map_cons, List.map_nil]
    rw [hm]
    rfl
  · decide

/-- Claim C5 amended: `combined_df` outer-joins the two resampled series on
bucket date — one row per date in the union of the two indexes, in ascending
date order — but a bucket absent from one (non-empty) input series gets a
*missing* (NaN) value on that side and a missing net, not `0`; net equals
income minus expense only on rows where both sides are present.  The absent
side is the scalar `0` (and net is defined everywhere) only when that whole
input series is empty, and combining two empty series raises `ValueError`. -/
theorem C5_amended_outer_join (inc ex : List (Date × ℚ))
    (hinc : inc.Pairwise (fun a b => dayNumber a.1 < dayNumber b.1))
    (hex : ex.Pairwise (fun a b => dayNumber a.1 < dayNumber b.1)) :
    (inc = [] → ex = [] → combined_df inc ex = Except.error PdError.valueError) ∧
    (inc = [] → ex ≠ [] → combined_df inc ex
      = Except.ok (ex.map (fun p => (p.1, some 0, some p.2, some (0 - p.2))))) ∧
    (inc ≠ [] → ex = [] → combined_df inc ex
      = Except.ok (inc.map (fun p => (p.1, some p.2, some 0, some (p.2 - 0))))) ∧
    (inc ≠ [] → ex ≠ [] → ∃ out, combined_df inc ex = Except.ok out ∧
      out.Pairwise (fun a b => dayNumber a.1 < dayNumber b.1) ∧
      (∀ n : Nat, n ∈ out.map (fun r => dayNumber r.1) ↔
        n ∈ inc.map (fun p => dayNumber p.1) ∨
          n ∈ ex.map (fun p => dayNumber p.1)) ∧
      (∀ r ∈ out,
        (r.2.1 = none ↔ dayNumber r.1 ∉ inc.map (fun p => dayNumber p.1)) ∧
        (r.2.2.1 = none ↔ dayNumber r.1 ∉ ex.map (fun p => dayNumber p.1)) ∧
        (∀ a, r.2.1 = some a →
          ∃ p ∈ inc, dayNumber p.1 = dayNumber r.1 ∧ p.2 = a) ∧
        (∀ b, r.2.2.1 = some b →
          ∃ p ∈ ex, dayNumber p.1 = dayNumber r.1 ∧ p.2 = b) ∧
        (∀ a b, r.2.1 = some a → r.2.2.1 = some b → r.2.2.2 = some (a - b)) ∧
        ((r.2.1 = none ∨ r.2.2.1 = none) → r.2.2.2 = none))) := by
  refine ⟨?_, ?_, ?_, ?_⟩
  · rintro rfl rfl; rfl
  · rintro rfl h2
    cases ex with
    | nil => exact absurd rfl h2
    | cons e0 es => rfl
  · intro h1 h2
    subst h2
    cases inc with
    | nil => exact absurd rfl h1
    | cons i0 is => rfl
  · intro h1 h2
    cases inc with
    | nil => exact absurd rfl h1
    | cons i0 is =>
      cases ex with
      | nil => exact absurd rfl h2
      | cons e0 es =>
        refine ⟨_, rfl, ?_, ?_, ?_⟩
        · have hpinc : ((i0 :: is).map (fun p => p.1)).Pairwise
              (fun a b => dayNumber a < dayNumber b) := by
            rw [List.pairwise_map]
            exact hinc
          have hpex : ((e0 :: es).map (fun p => p.1)).Pairwise
              (fun a b => dayNumber a < dayNumber b) := by
            rw [List.pairwise_map]
            exact hex
          have hmp := mergeUnion_pairwise _ _ hpinc hpex
          rw [List.pairwise_map]
          exact hmp
        · intro n
          have hk := mergeUnion_keys ((i0 :: is).map (fun p => p.1))
            ((e0 :: es).map (fun p => p.1)) n
          simpa [List.map_map, Function.comp] using hk
        · intro r hr
          rcases List.mem_map.mp hr with ⟨d, hd, rfl⟩
          dsimp only
          refine ⟨seriesGet_eq_none_iff _ d, seriesGet_eq_none_iff _ d,
            ?_, ?_, ?_, ?_⟩
          · intro a ha
            exact seriesGet_eq_some _ d a ha
          · intro b hb
            exact seriesGet_eq_some _ d b hb
          · intro a b ha hb
            rw [ha, hb]
            rfl
          · rintro (h | h)
            · rw [h]
              rfl
            · rw [h]
              cases seriesGet (i0 :: is) d <;> rfl

/-- Witness for the amended C5: a singleton income series combined with an
empty expense series broadcasts the scalar 0 on the expense side. -/
theorem C5_witness :
    combined_df [(⟨1, 1, 2024⟩, 100)] []
      = Except.ok [(⟨1, 1, 2024⟩, some 100, some 0, some (100 - 0))] := by
  have h := (C5_amended_outer_join [(⟨1, 1, 2024⟩, (100 : ℚ))] []
    (by decide) (by decide)).2.2.1 (by simp) rfl
  simpa using h

/-! ### Category-filtered resampling, as invoked by `create_visualizations` -/

/-- `df_indexed[df_indexed["category"] == c].resample("D").sum()`. -/
def category_resampleD (df : List Txn) (c : String) : List (Date × ℚ) :=
  resampleD_sum (dateAmount (filtered_data df c))

/-- `df_indexed[df_indexed["category"] == c].resample("M").sum()`. -/
def category_resampleM (df : List Txn) (c : String) : List (Date × ℚ) :=
  resampleM_sum (dateAmount (filtered_data df c))

theorem mem_dateAmount_filtered {df : List Txn} {c : String} {p : Date × ℚ}
    (hv : ∀ t ∈ df, t.date.Valid)
    (hp : p ∈ dateAmount (filtered_data df c)) : p.1.Valid := by
  rcases List.mem_map.mp hp with ⟨t, ht, rfl⟩
  rw [filtered_data_eq] at ht
  exact hv t (List.mem_of_mem_filter ht)

theorem monthIdx_monthEndDate (i : Nat) : monthIdx (monthEndDate i) = i := by
  unfold monthIdx monthEndDate
  dsimp only
  omega

theorem monthEndDate_valid (i : Nat) (h : 12 ≤ i) : (monthEndDate i).Valid := by
  unfold monthEndDate Date.Valid
  dsimp only
  have hpos := daysInMonth_pos (isLeapYear (i / 12)) (i % 12 + 1) (by omega) (by omega)
  exact ⟨by omega, by omega, hpos, le_refl _, by omega⟩

/-- A chronologically earlier month gives a chronologically earlier day
number, for valid dates. -/
theorem dayNumber_lt_of_monthIdx_lt {d1 d2 : Date} (h1 : d1.Valid) (h2 : d2.Valid)
    (h : monthIdx d1 < monthIdx d2) : dayNumber d1 < dayNumber d2 := by
  unfold monthIdx at h
  rcases Nat.lt_or_ge d1.year d2.year with hlt | hge
  · have ha := dayNumber_lt_yearStart_succ d1 h1
    have hb := yearStart_mono (show d1.year + 1 ≤ d2.year by omega)
    have hc := yearStart_le_dayNumber d2
    omega
  · obtain ⟨hm1, hm2, hd1a, hd1b, hy1⟩ := h1
    obtain ⟨hm1', hm2', hd2a, hd2b, hy2⟩ := h2
    have hyy : d1.year = d2.year := by omega
    have hmlt : d1.month < d2.month := by omega
    unfold dayNumber
    rw [hyy] at hd1b ⊢
    have ha := cdays_succ (isLeapYear d2.year) d1.month (by omega) hm1
    have hb := cdays_mono (isLeapYear d2.year) (d1.month + 1) (by omega)
      d2.month (by omega) (by omega)
    omega

/-- Closed form of monthly resampling once the index extremes are known. -/
theorem resampleM_sum_eq (rows : List (Date × ℚ)) (lo hi : Nat)
    (hlo : listMinNat (rows.map (fun p => monthIdx p.1)) = some lo)
    (hhi : listMaxNat (rows.map (fun p => monthIdx p.1)) = some hi) :
    resampleM_sum rows = (List.range (hi - lo + 1)).map (fun k =>
      (monthEndDate (lo + k), seriesSum ((rows.filter
        (fun p => monthIdx p.1 == lo + k)).map (fun p => p.2)))) := by
  unfold resampleM_sum
  rw [hlo, hhi]

/-- Closed form of daily resampling once the index extremes and the earliest
row are known. -/
theorem resampleD_sum_eq (rows : List (Date × ℚ)) (lo hi : Nat) (p0 : Date × ℚ)
    (hlo : listMinNat (rows.map (fun p => dayNumber p.1)) = some lo)
    (hhi : listMaxNat (rows.map (fun p => dayNumber p.1)) = some hi)
    (hp0 : rows.find? (fun p => dayNumber p.1 == lo) = some p0) :
    resampleD_sum rows = (List.range (hi - lo + 1)).map (fun k =>
      (succDate^[k] p0.1, seriesSum ((rows.filter
        (fun p => dayNumber p.1 == lo + k)).map (fun p => p.2)))) := by
  unfold resampleD_sum
  rw [hlo, hhi]
  simp only [hp0]

/-- Claim C6 counterexample: the spec scenario — two same-category
transactions dated 05-01-2024 and 25-01-2024 — produces a single January
bucket with the summed amount, but the bucket is labelled 31-01-2024 (pandas
`resample("M")` uses the month *end*), not the first day 01-01-2024 the claim
derives from its "truncate to first-of-month" wording. -/
theorem C6_counterexample :
    category_resampleM [⟨⟨5, 1, 2024⟩, 100, "Income", some "Salary"⟩,
        ⟨⟨25, 1, 2024⟩, 200, "Income", some "Bonus"⟩] "Income"
      = [(⟨31, 1, 2024⟩, 300)] ∧
    (⟨31, 1, 2024⟩ : Date) ≠ ⟨1, 1, 2024⟩ := by
  constructor
  · have h1 : category_resampleM [⟨⟨5, 1, 2024⟩, 100, "Income", some "Salary"⟩,
        ⟨⟨25, 1, 2024⟩, 200, "Income", some "Bonus"⟩] "Income"
        = [(⟨31, 1, 2024⟩, (0 + 100 + 200 : ℚ))] := rfl
    rw [h1, show (0 + 100 + 200 : ℚ) = 300 by norm_num]
  · decide

/-- Claim C6 amended: for every transaction subset with valid dates and every
category, monthly resample buckets the category's rows by calendar month and
sums the amounts per bucket, synthesizing one bucket per month from the
earliest to the latest occupied month, in ascending date order — but each
bucket is labelled with the LAST day of its month (pandas month-end
frequency), not the first; in particular the 05-01-2024/25-01-2024 scenario
yields the single bucket (31-01-2024, summed amount). -/
theorem C6_amended_monthly_resample (df : List Txn) (c : String) (lo hi : Nat)
    (hv : ∀ t ∈ df, t.date.Valid)
    (hlo : listMinNat ((dateAmount (filtered_data df c)).map
      (fun p => monthIdx p.1)) = some lo)
    (hhi : listMaxNat ((dateAmount (filtered_data df c)).map
      (fun p => monthIdx p.1)) = some hi) :
    ∃ out, category_resampleM df c = out ∧
      out.length = hi - lo + 1 ∧
      (∀ k (hk : k < out.length),
        (out.get ⟨k, hk⟩).1.Valid ∧
        monthIdx (out.get ⟨k, hk⟩).1 = lo + k ∧
        (out.get ⟨k, hk⟩).1.day = daysInMonth (isLeapYear (out.get ⟨k, hk⟩).1.year)
          (out.get ⟨k, hk⟩).1.month ∧
        (out.get ⟨k, hk⟩).2 = seriesSum (((dateAmount (filtered_data df c)).filter
          (fun p => monthIdx p.1 == lo + k)).map (fun p => p.2))) ∧
      out.Pairwise (fun a b => dayNumber a.1 < dayNumber b.1) ∧
      (∀ p ∈ dateAmount (filtered_data df c),
        monthIdx p.1 ∈ out.map (fun b => monthIdx b.1)) := by
  have hone := listMinNat_spec _ _ hlo
  have htwo := listMaxNat_spec _ _ hhi
  have hlo12 : 12 ≤ lo := by
    rcases List.mem_map.mp hone.1 with ⟨p, hp, hpk⟩
    have hval := mem_dateAmount_filtered hv hp
    have hy := hval.2.2.2.2
    unfold monthIdx at hpk
    omega
  have heq := resampleM_sum_eq (dateAmount (filtered_data df c)) lo hi hlo hhi
  refine ⟨_, heq, by simp, ?_, ?_, ?_⟩
  · intro k hk
    have hk2 : k < hi - lo + 1 := by simpa using hk
    have hget : ((List.range (hi - lo + 1)).map (fun k => (monthEndDate (lo + k),
        seriesSum (((dateAmount (filtered_data df c)).filter
          (fun p => monthIdx p.1 == lo + k)).map (fun p => p.2))))).get ⟨k, hk⟩
        = (monthEndDate (lo + k),
          seriesSum (((dateAmount (filtered_data df c)).filter
            (fun p => monthIdx p.1 == lo + k)).map (fun p => p.2))) := by
      simp [List.get_eq_getElem, List.getElem_map, List.getElem_range]
    rw [hget]
    exact ⟨monthEndDate_valid _ (by omega), monthIdx_monthEndDate _, rfl, rfl⟩
  · rw [List.pairwise_map]
    have hrange : (List.range (hi - lo + 1)).Pairwise (· < ·) :=
      List.pairwise_lt_range _
    exact hrange.imp (fun {a b} hab => dayNumber_lt_of_monthIdx_lt
      (monthEndDate_valid _ (by omega)) (monthEndDate_valid _ (by omega))
      (by rw [monthIdx_monthEndDate, monthIdx_monthEndDate]; omega))
  · intro p hp
    have hpl : lo ≤ monthIdx p.1 := hone.2 _ (List.mem_map.mpr ⟨p, hp, rfl⟩)
    have hph : monthIdx p.1 ≤ hi := htwo.2 _ (List.mem_map.mpr ⟨p, hp, rfl⟩)
    rw [List.map_map]
    refine List.mem_map.mpr ⟨monthIdx p.1 - lo, List.mem_range.mpr (by omega), ?_⟩
    show monthIdx (monthEndDate (lo + (monthIdx p.1 - lo))) = monthIdx p.1
    rw [monthIdx_monthEndDate]
    omega

/-- Witness for the amended C6 at the spec's scenario: the two January-2024
transactions produce exactly one bucket, indexed by month 24288
(= 12·2024 + 0, January 2024), and that bucket's label is the last day of its
month. -/
theorem C6_witness :
    ∃ out, category_resampleM [⟨⟨5, 1, 2024⟩, 100, "Income", some "Salary"⟩,
        ⟨⟨25, 1, 2024⟩, 200, "Income", some "Bonus"⟩] "Income" = out ∧
      out.length = 1 ∧
      ∀ hk : 0 < out.length,
        monthIdx (out.get ⟨0, hk⟩).1 = 24288 ∧
        (out.get ⟨0, hk⟩).1.day = daysInMonth (isLeapYear (out.get ⟨0, hk⟩).1.year)
          (out.get ⟨0, hk⟩).1.month := by
  obtain ⟨out, heq, hlen, hget, hpw, hmem⟩ :=
    C6_amended_monthly_resample [⟨⟨5, 1, 2024⟩, 100, "Income", some "Salary"⟩,
        ⟨⟨25, 1, 2024⟩, 200, "Income", some "Bonus"⟩] "Income" 24288 24288
      (by decide) (by rfl) (by rfl)
  refine ⟨out, heq, by simpa using hlen, fun hk => ?_⟩
  obtain ⟨_, hidx, hday, _⟩ := hget 0 hk
  exact ⟨by simpa using hidx, hday⟩

/-- Claim C10: for every non-empty category-filtered subset (valid dates),
daily resampling returns one bucket for every calendar day from the earliest
to the latest matching transaction date inclusive — consecutive serial day
numbers starting at the minimum, one bucket per day in between — with each
bucket holding the sum of the amounts on its day, and sum 0 for gap days with
no matching transactions. -/
theorem C10_daily_gap_fill (df : List Txn) (c : String) (lo hi : Nat)
    (hv : ∀ t ∈ df, t.date.Valid)
    (hlo : listMinNat ((dateAmount (filtered_data df c)).map
      (fun p => dayNumber p.1)) = some lo)
    (hhi : listMaxNat ((dateAmount (filtered_data df c)).map
      (fun p => dayNumber p.1)) = some hi) :
    ∃ out, category_resampleD df c = out ∧
      out.length = hi - lo + 1 ∧
      (∀ k (hk : k < out.length),
        (out.get ⟨k, hk⟩).1.Valid ∧
        dayNumber (out.get ⟨k, hk⟩).1 = lo + k ∧
        (out.get ⟨k, hk⟩).2 = seriesSum (((dateAmount (filtered_data df c)).filter
          (fun p => dayNumber p.1 == lo + k)).map (fun p => p.2)) ∧
        ((∀ p ∈ dateAmount (filtered_data df c), dayNumber p.1 ≠ lo + k) →
          (out.get ⟨k, hk⟩).2 = 0)) ∧
      (∀ D : Date, D.Valid → lo ≤ dayNumber D → dayNumber D ≤ hi →
        ∃ v, (D, v) ∈ out) := by
  have hone := listMinNat_spec _ _ hlo
  have htwo := listMaxNat_spec _ _ hhi
  obtain ⟨p0, hp0⟩ : ∃ p0, (dateAmount (filtered_data df c)).find?
      (fun p => dayNumber p.1 == lo) = some p0 := by
    rcases List.mem_map.mp hone.1 with ⟨q, hq, hqk⟩
    cases hf : (dateAmount (filtered_data df c)).find?
        (fun p => dayNumber p.1 == lo) with
    | some p0 => exact ⟨p0, rfl⟩
    | none =>
      rw [List.find?_eq_none] at hf
      exact absurd (show (dayNumber q.1 == lo) = true by simpa using hqk) (hf q hq)
  have hp0k : dayNumber p0.1 = lo := by simpa using List.find?_some hp0
  have hp0v : p0.1.Valid := mem_dateAmount_filtered hv (List.mem_of_find?_eq_some hp0)
  have heq := resampleD_sum_eq (dateAmount (filtered_data df c)) lo hi p0 hlo hhi hp0
  refine ⟨_, heq, by simp, ?_, ?_⟩
  · intro k hk
    have hk2 : k < hi - lo + 1 := by simpa using hk
    have hit := succDate_iterate p0.1 hp0v k
    have hget : ((List.range (hi - lo + 1)).map (fun k => (succDate^[k] p0.1,
        seriesSum (((dateAmount (filtered_data df c)).filter
          (fun p => dayNumber p.1 == lo + k)).map (fun p => p.2))))).get ⟨k, hk⟩
        = (succDate^[k] p0.1,
          seriesSum (((dateAmount (filtered_data df c)).filter
            (fun p => dayNumber p.1 == lo + k)).map (fun p => p.2))) := by
      simp [List.get_eq_getElem, List.getElem_map, List.getElem_range]
    rw [hget]
    refine ⟨hit.1, by rw [hit.2, hp0k], rfl, ?_⟩
    intro hnone
    have hfil : (dateAmount (filtered_data df c)).filter
        (fun p => dayNumber p.1 == lo + k) = [] := by
      rw [List.filter_eq_nil_iff]
      intro p hp hc
      exact hnone p hp (by simpa using hc)
    rw [hfil]
    rfl
  · intro D hD hDlo hDhi
    refine ⟨seriesSum (((dateAmount (filtered_data df c)).filter
      (fun p => dayNumber p.1 == lo + (dayNumber D - lo))).map (fun p => p.2)), ?_⟩
    have hit := succDate_iterate p0.1 hp0v (dayNumber D - lo)
    have hdate : succDate^[dayNumber D - lo] p0.1 = D :=
      dayNumber_inj hit.1 hD (by rw [hit.2, hp0k]; omega)
    refine List.mem_map.mpr ⟨dayNumber D - lo, List.mem_range.mpr (by omega), ?_⟩
    dsimp only
    rw [hdate]

/-- Witness for C10: transactions on 01-01-2024 and 03-01-2024 resample to
three daily buckets, and the gap day 02-01-2024 gets a bucket. -/
theorem C10_witness :
    ∃ out, category_resampleD [⟨⟨1, 1, 2024⟩, 100, "Income", some "Salary"⟩,
        ⟨⟨3, 1, 2024⟩, 50, "Income", some "Bonus"⟩] "Income" = out ∧
      out.length = 3 ∧
      ∃ v, ((⟨2, 1, 2024⟩ : Date), v) ∈ out := by
  obtain ⟨out, heq, hlen, hget, hmem⟩ :=
    C10_daily_gap_fill [⟨⟨1, 1, 2024⟩, 100, "Income", some "Salary"⟩,
        ⟨⟨3, 1, 2024⟩, 50, "Income", some "Bonus"⟩] "Income"
      (dayNumber ⟨1, 1, 2024⟩) (dayNumber ⟨3, 1, 2024⟩)
      (by decide) (by rfl) (by rfl)
  refine ⟨out, heq, by rw [hlen]; decide, ?_⟩
  exact hmem ⟨2, 1, 2024⟩ (by decide) (by decide) (by decide)

end FinanceFlow
